import Mathlib

/-!
# giddyup `healthz`: probe dispatch and retry loop

A shallow embedding of `src/app/healthz.go` (`healthCheck`, `singleHealthCheck`,
`loopHealthCheck`) and theorems about it.

Modelling conventions.

* `time.Duration` is an `int64` count of nanoseconds; it is embedded as `Int`.
  The loop only compares durations and replaces them, so no integer arithmetic
  can overflow in the modelled code.
* A Go `error` is embedded by its message (`err.Error()`); `nil` is `none`.
* Everything the program does to the outside world is recorded, in order, as a
  list of `Event`s.  The answers of the outside world (URL parsing, the TCP
  dial, the HTTP GET) are inputs of the model (`World`).
* The floating point expression on line 97,
  `time.Duration(float64(min) * math.Pow(backoff, float64(loops)))`,
  is built from four library operations that are collected in `FloatOps`.
  Theorems about the loop are stated for every `FloatOps`, so they hold
  whatever the library computes.  Concrete runs are evaluated with
  `float64Ops`, a model of IEEE 754 binary64 arithmetic (round to nearest,
  ties to even) and of the Go library function `math.Pow`.  In that model the
  two zeros are identified (no result on line 97 depends on the sign of a
  zero), `float64(loops)` is exact (`loops` stays far below `2^53`), and the
  conversion to `int64` of a value that `int64` cannot represent, which the Go
  specification leaves to the implementation, is a parameter.
* `loopHealthCheck` need not terminate, so it is run with a bound `fuel` on the
  number of probes; the outcome `none` means "still looping".
-/

namespace Giddyup

set_option maxRecDepth 8000

/-- Nanoseconds, as in `time.Duration`. -/
abbrev Duration := Int

/-- One second, `time.Second`. -/
def Second : Duration := 1000000000

/-- The fields of `url.URL` that `healthCheck` reads. -/
structure URL where
  Scheme : String
  Host : String
  deriving DecidableEq, Repr

/-- Observable effects, in program order.  `probe` marks an entry into
`healthCheck`; `dial`, `close` and `get` are the network operations. -/
inductive Event where
  | probe
  | dial (network : String) (address : String) (timeout : Duration)
  | close
  | get (url : String) (timeout : Duration)
  | println (line : String)
  | sleep (d : Duration)
  | exit (code : Int)
  deriving DecidableEq, Repr

/-- Answers of the network to one probe: `net.DialTimeout` yields a connection
or an error, `client.Get` yields a response status code or a transport error. -/
structure Net where
  dial : String → String → Duration → Except String Unit
  get : String → Duration → Except String Int

/-- The outside world: `url.Parse`, and the network as seen by the probe that
is preceded by `i` earlier probes. -/
structure World where
  parse : String → Except String URL
  net : Nat → Net

/-- The world after one probe has been made. -/
def World.shift (w : World) : World :=
  { parse := w.parse, net := fun i => w.net (i + 1) }

/-- The flag values read from `*cli.Context`; `F` is the type of `float64`. -/
structure Context (F : Type) where
  endpoint : String
  timeout : Duration
  backoff : F
  min : Duration
  max : Duration

/-- The library operations used by line 97. -/
structure FloatOps (F : Type) where
  /-- Conversion `float64(min)`. -/
  ofDuration : Duration → F
  /-- Power `math.Pow(backoff, float64(loops))`. -/
  powLoops : F → Nat → F
  /-- Product of two `float64`. -/
  mul : F → F → F
  /-- Conversion `time.Duration(x)`. -/
  toDuration : F → Duration

/-- Truncation toward zero. -/
def truncate (q : ℚ) : Int :=
  if 0 ≤ q then ⌊q⌋ else ⌈q⌉

/-- Values of `float64`: the finite ones by their rational value (the two zeros
identified), the infinities and NaN. -/
inductive Float64 where
  | finite (q : ℚ)
  | inf (negative : Bool)
  | nan
  deriving Repr

/-- Number of binary digits of `n`, added to `acc`; the first argument bounds the
recursion and `n` itself is always enough. -/
def bitLength : Nat → Nat → Nat → Nat
  | 0, _, acc => acc
  | fuel + 1, n, acc => if n = 0 then acc else bitLength fuel (n / 2) (acc + 1)

/-- The power `2^e` for an integer `e`. -/
def pow2 (e : Int) : ℚ :=
  if 0 ≤ e then ((2 ^ e.toNat : Nat) : ℚ) else 1 / ((2 ^ (-e).toNat : Nat) : ℚ)

/-- For `q ≠ 0`, the integer `e` with `2^e ≤ |q| < 2^(e+1)`. -/
def binade (q : ℚ) : Int :=
  let a : Int := bitLength q.num.natAbs q.num.natAbs 0
  let b : Int := bitLength q.den q.den 0
  if pow2 (a - b) ≤ |q| then a - b else a - b - 1

/-- Nearest integer to `x ≥ 0`, ties to the even one. -/
def roundHalfEven (x : ℚ) : Int :=
  let f := ⌊x⌋
  let r := x - f
  if r < 1 / 2 then f else if 1 / 2 < r then f + 1 else if f % 2 = 0 then f else f + 1

/-- Rounding of a rational to binary64: 53 significant bits, exponents from
`-1022` (below which the spacing stays `2^-1074`) to `1023`, round to nearest,
ties to even, overflow to an infinity. -/
def round64 (q : ℚ) : Float64 :=
  if q.num = 0 then Float64.finite 0
  else
    let e := max (binade q) (-1022)
    let quantum := pow2 (e - 52)
    let m := roundHalfEven (|q| / quantum)
    if 1024 ≤ e ∨ (e = 1023 ∧ 9007199254740992 ≤ m) then Float64.inf (decide (q < 0))
    else Float64.finite (if q < 0 then -(m * quantum) else m * quantum)

/-- The rounded value of a rational whose rounding is finite. -/
def roundQ (q : ℚ) : ℚ :=
  match round64 q with
  | Float64.finite r => r
  | _ => 0

/-- The function `math.Frexp` on a finite non-zero value: `q = frac * 2^exp` with
`1/2 ≤ |frac| < 1`. -/
def Frexp (q : ℚ) : ℚ × Int :=
  let e := binade q + 1
  (q / pow2 e, e)

/-- The function `math.Ldexp`: `frac * 2^exp`, rounded once. -/
def Ldexp (frac : ℚ) (exp : Int) : Float64 :=
  round64 (frac * pow2 exp)

/-- The loop of `math.Pow` over the bits of the integer exponent `i`, with the
running result `a1 * 2^ae` and the running square `x1 * 2^xe`; every product is
rounded.  The first argument bounds the number of iterations. -/
def powLoop : Nat → Nat → ℚ → Int → ℚ → Int → ℚ × Int
  | 0, _, a1, ae, _, _ => (a1, ae)
  | fuel + 1, i, a1, ae, x1, xe =>
    if i = 0 then (a1, ae)
    else if xe < -4096 ∨ 4096 < xe then (a1, ae + xe)
    else
      let a1' := if i % 2 = 1 then roundQ (a1 * x1) else a1
      let ae' := if i % 2 = 1 then ae + xe else ae
      let x2 := roundQ (x1 * x1)
      let xe2 := 2 * xe
      if x2 < 1 / 2 then powLoop fuel (i / 2) a1' ae' (x2 + x2) (xe2 - 1)
      else powLoop fuel (i / 2) a1' ae' x2 xe2

/-- Whether a `float64` is `1`. -/
def Float64.isOne : Float64 → Bool
  | Float64.finite q => decide (q.num = 1 ∧ q.den = 1)
  | _ => false

/-- The function `math.Pow(x, y)` of the Go library for `y = float64(loops)`, a
non-negative integer: the special cases `y == 0 || x == 1`, `y == 1`, NaN, zero
and the infinities, then `Frexp`, the loop over the bits of `y`, and `Ldexp`. -/
def Pow (x : Float64) (loops : Nat) : Float64 :=
  if loops = 0 ∨ x.isOne = true then Float64.finite 1
  else if loops = 1 then x
  else
    match x with
    | Float64.nan => Float64.nan
    | Float64.inf false => Float64.inf false
    | Float64.inf true => if loops % 2 = 1 then Float64.inf true else Float64.inf false
    | Float64.finite q =>
      if q.num = 0 then Float64.finite 0
      else
        let fr := Frexp q
        let r := powLoop 64 loops 1 0 fr.1 fr.2
        Ldexp r.1 r.2

/-- Product of two `float64`. -/
def Float64.mul : Float64 → Float64 → Float64
  | Float64.nan, _ => Float64.nan
  | _, Float64.nan => Float64.nan
  | Float64.finite a, Float64.finite b => round64 (a * b)
  | Float64.inf s, Float64.finite b =>
    if b.num = 0 then Float64.nan else Float64.inf (xor s (decide (b < 0)))
  | Float64.finite a, Float64.inf s =>
    if a.num = 0 then Float64.nan else Float64.inf (xor s (decide (a < 0)))
  | Float64.inf s, Float64.inf t => Float64.inf (xor s t)

/-- Conversion of a `float64` to `int64`: the fraction is discarded; for a value
that `int64` cannot represent the result is left to the implementation and is
given by `conv`. -/
def toInt64 (conv : Float64 → Duration) : Float64 → Duration
  | Float64.finite q =>
    if -9223372036854775808 ≤ truncate q ∧ truncate q ≤ 9223372036854775807 then truncate q
    else conv (Float64.finite q)
  | x => conv x

/-- Line 97 in binary64 arithmetic. -/
def float64Ops (conv : Float64 → Duration) : FloatOps Float64 where
  ofDuration := fun d => round64 (d : ℚ)
  powLoops := Pow
  mul := Float64.mul
  toDuration := toInt64 conv

/-- What an amd64 processor yields for a value that `int64` cannot represent. -/
def outOfRange : Float64 → Duration :=
  fun _ => -9223372036854775808

/-- Result of `healthCheck`: the returned `error` and the effects performed. -/
abbrev ProbeResult := Option String × List Event

/-- The function `healthCheck`, lines 107-139. -/
def healthCheck {F : Type} (parse : String → Except String URL) (net : Net)
    (c : Context F) : ProbeResult :=
  let timeout := c.timeout
  match parse c.endpoint with
  | Except.error err => (some err, [Event.probe])
  | Except.ok url =>
    if url.Scheme = "tcp" then
      match net.dial url.Scheme url.Host timeout with
      | Except.error err => (some err, [Event.probe, Event.dial url.Scheme url.Host timeout])
      | Except.ok _ =>
        (none, [Event.probe, Event.dial url.Scheme url.Host timeout, Event.close])
    else if url.Scheme = "http" ∨ url.Scheme = "https" then
      match net.get c.endpoint timeout with
      | Except.error err => (some err, [Event.probe, Event.get c.endpoint timeout])
      | Except.ok StatusCode =>
        if StatusCode ≥ 200 ∧ StatusCode ≤ 299 then
          (none, [Event.probe, Event.get c.endpoint timeout])
        else
          (some ("HTTP " ++ toString StatusCode ++ "\n"),
            [Event.probe, Event.get c.endpoint timeout])
    else
      (some ("Unsupported URL scheme: " ++ url.Scheme ++ "\n"), [Event.probe])

/-- How a command ends: it returns an `error` to its caller or ends the process
with `os.Exit`. -/
inductive Outcome where
  | returned (err : Option String)
  | exited (code : Int)
  deriving DecidableEq, Repr

/-- The function `singleHealthCheck`, lines 77-84. -/
def singleHealthCheck {F : Type} (w : World) (c : Context F) : Outcome × List Event :=
  match healthCheck w.parse (w.net 0) c with
  | (some err, evs) => (Outcome.exited 1, evs ++ [Event.println err, Event.exit 1])
  | (none, evs) => (Outcome.returned none, evs ++ [Event.println "OK"])

/-- Lines 95-101: the update of `delay` at the end of one iteration, where
`loops` is the counter after `loops += 1`. -/
def nextDelay {F : Type} (ops : FloatOps F) (c : Context F) (loops : Nat)
    (delay : Duration) : Duration :=
  let delay :=
    if delay < c.max then
      ops.toDuration (ops.mul (ops.ofDuration c.min) (ops.powLoops c.backoff loops))
    else delay
  if delay > c.max then c.max else delay

/-- The `for` loop of `loopHealthCheck` (lines 92-104) entered with the given
values of `loops` and `delay`; at most `fuel` probes are made. -/
def loopFrom {F : Type} (ops : FloatOps F) (c : Context F) :
    Nat → World → Nat → Duration → Option Outcome × List Event
  | 0, _, _, _ => (none, [])
  | fuel + 1, w, loops, delay =>
    match healthCheck w.parse (w.net 0) c with
    | (none, evs) => (some (Outcome.returned none), evs ++ [Event.println "OK"])
    | (some err, evs) =>
      let loops := loops + 1
      let rest := loopFrom ops c fuel w.shift loops (nextDelay ops c loops delay)
      (rest.1, evs ++ [Event.println err, Event.sleep delay] ++ rest.2)

/-- The function `loopHealthCheck`, lines 86-105. -/
def loopHealthCheck {F : Type} (ops : FloatOps F) (w : World) (c : Context F)
    (fuel : Nat) : Option Outcome × List Event :=
  loopFrom ops c fuel w 0 c.min

/-- The value of `delay` after `n` failed probes, which is the duration of the
sleep that follows failed probe number `n + 1`. -/
def delayAt {F : Type} (ops : FloatOps F) (c : Context F) : Nat → Duration
  | 0 => c.min
  | n + 1 => nextDelay ops c (n + 1) (delayAt ops c n)

/-- The value that the loop assigns to `delay` for the sleep with index `n`
before the clamp: `min` for the first sleep (line 91), the value of line 97 with
`loops = n` for the others. -/
def target {F : Type} (ops : FloatOps F) (c : Context F) : Nat → Duration
  | 0 => c.min
  | n + 1 =>
    ops.toDuration (ops.mul (ops.ofDuration c.min) (ops.powLoops c.backoff (n + 1)))

/-- The durations passed to `time.Sleep`, in order. -/
def sleepDurations : List Event → List Duration
  | [] => []
  | Event.sleep d :: es => d :: sleepDurations es
  | _ :: es => sleepDurations es

/-- The lines printed, in order. -/
def printed : List Event → List String
  | [] => []
  | Event.println s :: es => s :: printed es
  | _ :: es => printed es

/-- Number of probes made. -/
def probeCount (es : List Event) : Nat := es.count Event.probe

/-- Whether an event is a network operation. -/
def Event.isNetOp : Event → Bool
  | Event.dial _ _ _ => true
  | Event.close => true
  | Event.get _ _ => true
  | _ => false

/-! ## Concrete inputs -/

/-- A world in which `url.Parse` returns scheme `tcp` and the first `k` dials
are refused. -/
def refusing (k : Nat) : World where
  parse := fun _ => Except.ok { Scheme := "tcp", Host := "example:4000" }
  net := fun i =>
    { dial := fun _ _ _ => if i < k then Except.error "connection refused" else Except.ok ()
      get := fun _ _ => Except.error "unused" }

/-- A world in which `url.Parse` returns the given scheme and every GET is
answered with the given status code. -/
def answering (scheme : String) (status : Int) : World where
  parse := fun _ => Except.ok { Scheme := scheme, Host := "example" }
  net := fun _ =>
    { dial := fun _ _ _ => Except.error "unused"
      get := fun _ _ => Except.ok status }

/-- A world in which `url.Parse` fails. -/
def unparseable : World where
  parse := fun _ => Except.error "parse %zz: invalid URL escape"
  net := fun _ =>
    { dial := fun _ _ _ => Except.error "unused"
      get := fun _ _ => Except.error "unused" }

/-- Flags of the `loop` command with endpoint `tcp://example:4000` and the
default timeout; the text of `--backoff` is parsed to the nearest `float64`. -/
def flags (min max : Duration) (backoff : ℚ) : Context Float64 :=
  { endpoint := "tcp://example:4000", timeout := 5 * Second, backoff := round64 backoff,
    min := min, max := max }

/-! ## Projections of a trace -/

theorem sleepDurations_append (xs ys : List Event) :
    sleepDurations (xs ++ ys) = sleepDurations xs ++ sleepDurations ys := by
  induction xs with
  | nil => rfl
  | cons e es ih => cases e <;> simp [sleepDurations, ih]

theorem printed_append (xs ys : List Event) :
    printed (xs ++ ys) = printed xs ++ printed ys := by
  induction xs with
  | nil => rfl
  | cons e es ih => cases e <;> simp [printed, ih]

theorem probeCount_append (xs ys : List Event) :
    probeCount (xs ++ ys) = probeCount xs + probeCount ys := by
  simp [probeCount, List.count_append]

/-! ## The probe -/

/-- The probe sleeps and prints nothing, and is entered once per call. -/
theorem healthCheck_events {F : Type} (parse : String → Except String URL) (net : Net)
    (c : Context F) :
    sleepDurations (healthCheck parse net c).2 = [] ∧
    printed (healthCheck parse net c).2 = [] ∧
    probeCount (healthCheck parse net c).2 = 1 := by
  unfold healthCheck
  simp only []
  split
  · simp [sleepDurations, printed, probeCount]
  · split
    · split <;> simp [sleepDurations, printed, probeCount]
    · split
      · split
        · simp [sleepDurations, printed, probeCount]
        · split <;> simp [sleepDurations, printed, probeCount]
      · simp [sleepDurations, printed, probeCount]

/-- C7: when `url.Parse` fails on the endpoint, `healthCheck` returns that parse
error and performs no network operation (no dial, no GET, no close). -/
theorem healthCheck_parse_error {F : Type} (parse : String → Except String URL) (net : Net)
    (c : Context F) (err : String) (h : parse c.endpoint = Except.error err) :
    (healthCheck parse net c).1 = some err ∧
    ∀ e ∈ (healthCheck parse net c).2, e.isNetOp = false := by
  simp [healthCheck, h, Event.isNetOp]

theorem healthCheck_parse_error_witness :
    unparseable.parse (flags Second Second 1).endpoint
        = Except.error "parse %zz: invalid URL escape" ∧
    ((healthCheck unparseable.parse (unparseable.net 0) (flags Second Second 1)).1
        = some "parse %zz: invalid URL escape" ∧
      ∀ e ∈ (healthCheck unparseable.parse (unparseable.net 0) (flags Second Second 1)).2,
        e.isNetOp = false) :=
  ⟨rfl, healthCheck_parse_error unparseable.parse (unparseable.net 0) (flags Second Second 1)
    "parse %zz: invalid URL escape" rfl⟩

/-- C3: when the endpoint parses to a URL whose scheme is none of `tcp`, `http`,
`https` (the empty scheme included), `healthCheck` fails with the message
`Unsupported URL scheme: <scheme>` and performs no network operation. -/
theorem healthCheck_unsupported_scheme {F : Type} (parse : String → Except String URL)
    (net : Net) (c : Context F) (url : URL) (hparse : parse c.endpoint = Except.ok url)
    (htcp : url.Scheme ≠ "tcp") (hhttp : url.Scheme ≠ "http") (hhttps : url.Scheme ≠ "https") :
    (healthCheck parse net c).1 = some ("Unsupported URL scheme: " ++ url.Scheme ++ "\n") ∧
    ∀ e ∈ (healthCheck parse net c).2, e.isNetOp = false := by
  simp [healthCheck, hparse, htcp, hhttp, hhttps, Event.isNetOp]

theorem healthCheck_unsupported_scheme_witness :
    (healthCheck (answering "ftp" 200).parse ((answering "ftp" 200).net 0)
        (flags Second Second 1)).1 = some "Unsupported URL scheme: ftp\n" ∧
    ∀ e ∈ (healthCheck (answering "ftp" 200).parse ((answering "ftp" 200).net 0)
        (flags Second Second 1)).2, e.isNetOp = false :=
  healthCheck_unsupported_scheme (answering "ftp" 200).parse ((answering "ftp" 200).net 0)
    (flags Second Second 1) { Scheme := "ftp", Host := "example" } rfl
    (by decide) (by decide) (by decide)

/-- C2: when the endpoint parses to an `http` or `https` URL and the GET yields a
response with status code `s`, `healthCheck` succeeds exactly when
`200 ≤ s ≤ 299`, and otherwise fails with the message `HTTP <s>` where `<s>` is
`s` in decimal. -/
theorem healthCheck_http_status {F : Type} (parse : String → Except String URL) (net : Net)
    (c : Context F) (url : URL) (s : Int) (hparse : parse c.endpoint = Except.ok url)
    (hscheme : url.Scheme = "http" ∨ url.Scheme = "https")
    (hget : net.get c.endpoint c.timeout = Except.ok s) :
    ((healthCheck parse net c).1 = none ↔ 200 ≤ s ∧ s ≤ 299) ∧
    (¬ (200 ≤ s ∧ s ≤ 299) →
      (healthCheck parse net c).1 = some ("HTTP " ++ toString s ++ "\n")) := by
  have htcp : url.Scheme ≠ "tcp" := by
    rcases hscheme with h | h <;> rw [h] <;> decide
  by_cases hs : 200 ≤ s ∧ s ≤ 299
  · simp [healthCheck, hparse, htcp, hscheme, hget, hs]
  · simp [healthCheck, hparse, htcp, hscheme, hget, hs]

theorem healthCheck_http_status_witness :
    (healthCheck (answering "https" 404).parse ((answering "https" 404).net 0)
        (flags Second Second 1)).1 = some "HTTP 404\n" :=
  (healthCheck_http_status (answering "https" 404).parse ((answering "https" 404).net 0)
    (flags Second Second 1) { Scheme := "https", Host := "example" } 404 rfl
    (Or.inr rfl) rfl).2 (by decide)

/-! ## The `single` command -/

/-- C6: `singleHealthCheck` enters the probe exactly once.  When the probe
succeeds, the command prints `OK` (and nothing else) after the probe and returns
`nil`.  When the probe fails with error `e`, the command prints `e` (and nothing
else, so `OK` is not printed by line 82) and ends the process with exit code 1. -/
theorem singleHealthCheck_spec {F : Type} (w : World) (c : Context F) :
    probeCount (singleHealthCheck w c).2 = 1 ∧
    match (healthCheck w.parse (w.net 0) c).1 with
    | none =>
      singleHealthCheck w c
        = (Outcome.returned none, (healthCheck w.parse (w.net 0) c).2 ++ [Event.println "OK"]) ∧
      printed (singleHealthCheck w c).2 = ["OK"]
    | some e =>
      singleHealthCheck w c
        = (Outcome.exited 1,
            (healthCheck w.parse (w.net 0) c).2 ++ [Event.println e, Event.exit 1]) ∧
      printed (singleHealthCheck w c).2 = [e] := by
  obtain ⟨-, hp, hc⟩ := healthCheck_events w.parse (w.net 0) c
  unfold singleHealthCheck
  rcases h : healthCheck w.parse (w.net 0) c with ⟨r, evs⟩
  rw [h] at hp hc
  cases r with
  | none => simp_all [probeCount_append, printed_append, printed, probeCount]
  | some e => simp_all [probeCount_append, printed_append, printed, probeCount]

/-! ## The delay update -/

theorem nextDelay_of_lt {F : Type} (ops : FloatOps F) (c : Context F) (loops : Nat)
    (delay : Duration) (h : delay < c.max) :
    nextDelay ops c loops delay =
      min (ops.toDuration (ops.mul (ops.ofDuration c.min) (ops.powLoops c.backoff loops)))
        c.max := by
  unfold nextDelay
  simp only [h, if_true]
  split
  · next hgt => rw [min_eq_right (le_of_lt hgt)]
  · next hgt => rw [min_eq_left (not_lt.mp hgt)]

theorem nextDelay_of_ge {F : Type} (ops : FloatOps F) (c : Context F) (loops : Nat)
    (delay : Duration) (h : c.max ≤ delay) : nextDelay ops c loops delay = c.max := by
  unfold nextDelay
  simp only [not_lt.mpr h, if_false]
  split
  · rfl
  · next hgt => exact le_antisymm (not_lt.mp hgt) h

theorem nextDelay_le_max {F : Type} (ops : FloatOps F) (c : Context F) (loops : Nat)
    (delay : Duration) : nextDelay ops c loops delay ≤ c.max := by
  by_cases h : delay < c.max
  · rw [nextDelay_of_lt ops c loops delay h]; exact min_le_right _ _
  · rw [nextDelay_of_ge ops c loops delay (not_lt.mp h)]

/-- Once `delay` equals `max` it stays there. -/
theorem delayAt_stays_max {F : Type} (ops : FloatOps F) (c : Context F) (n : Nat)
    (h : delayAt ops c n = c.max) : ∀ k, delayAt ops c (n + k) = c.max := by
  intro k
  induction k with
  | zero => exact h
  | succ k ih =>
    show nextDelay ops c (n + k + 1) (delayAt ops c (n + k)) = c.max
    exact nextDelay_of_ge ops c _ _ (le_of_eq ih.symm)

/-! ## The retry loop -/

/-- The sleeps of the loop entered after `l` failed probes are the values
`delayAt l`, `delayAt (l + 1)`, ... -/
theorem sleepDurations_loopFrom {F : Type} (ops : FloatOps F) (c : Context F) :
    ∀ (fuel : Nat) (w : World) (l : Nat), ∃ m, m ≤ fuel ∧
      sleepDurations (loopFrom ops c fuel w l (delayAt ops c l)).2 =
        (List.range m).map (fun i => delayAt ops c (l + i)) := by
  intro fuel
  induction fuel with
  | zero => intro w l; exact ⟨0, le_refl _, rfl⟩
  | succ fuel ih =>
    intro w l
    obtain ⟨hs, -, -⟩ := healthCheck_events w.parse (w.net 0) c
    unfold loopFrom
    rcases h : healthCheck w.parse (w.net 0) c with ⟨r, evs⟩
    rw [h] at hs
    cases r with
    | none =>
      refine ⟨0, Nat.zero_le _, ?_⟩
      simp [sleepDurations_append, sleepDurations] at hs ⊢
      exact hs
    | some err =>
      obtain ⟨m, hm, hrest⟩ := ih w.shift (l + 1)
      refine ⟨m + 1, Nat.succ_le_succ hm, ?_⟩
      have hd : nextDelay ops c (l + 1) (delayAt ops c l) = delayAt ops c (l + 1) := rfl
      simp only [sleepDurations_append, hs, hd, hrest, sleepDurations, List.nil_append,
        List.cons_append, List.range_succ_eq_map, List.map_cons, List.map_map,
        Nat.add_zero]
      congr 1
      apply List.map_congr_left
      intro i _
      simp only [Function.comp, Nat.succ_eq_add_one]
      congr 1
      omega

/-- The sleep with index `n` (counting from 0) lasts `delayAt n`. -/
theorem sleep_eq_delayAt {F : Type} (ops : FloatOps F) (w : World) (c : Context F)
    (fuel n : Nat) (d : Duration)
    (h : (sleepDurations (loopHealthCheck ops w c fuel).2)[n]? = some d) :
    d = delayAt ops c n := by
  obtain ⟨m, -, hm⟩ := sleepDurations_loopFrom ops c fuel w 0
  unfold loopHealthCheck at h
  have h0 : delayAt ops c 0 = c.min := rfl
  rw [h0] at hm
  rw [hm] at h
  simp only [List.getElem?_map, Nat.zero_add] at h
  by_cases hn : n < m
  · rw [List.getElem?_range hn] at h
    simp at h
    exact h.symm
  · rw [List.getElem?_eq_none (by simp; omega)] at h
    simp at h

/-- The loop ends only by returning `nil`. -/
theorem loopFrom_outcome {F : Type} (ops : FloatOps F) (c : Context F) :
    ∀ (fuel : Nat) (w : World) (l : Nat) (d : Duration),
      (loopFrom ops c fuel w l d).1 = none ∨
      (loopFrom ops c fuel w l d).1 = some (Outcome.returned none) := by
  intro fuel
  induction fuel with
  | zero => intro w l d; exact Or.inl rfl
  | succ fuel ih =>
    intro w l d
    unfold loopFrom
    rcases h : healthCheck w.parse (w.net 0) c with ⟨r, evs⟩
    cases r with
    | none => exact Or.inr rfl
    | some err => exact ih w.shift (l + 1) _

/-- After `k` failed probes and a successful one the loop returns. -/
theorem loopFrom_success {F : Type} (ops : FloatOps F) (c : Context F) :
    ∀ (k : Nat) (w : World) (l : Nat) (d : Duration) (fuel : Nat) (err : Nat → String),
      (∀ i, i < k → (healthCheck w.parse (w.net i) c).1 = some (err i)) →
      (healthCheck w.parse (w.net k) c).1 = none → k < fuel →
      (loopFrom ops c fuel w l d).1 = some (Outcome.returned none) ∧
      probeCount (loopFrom ops c fuel w l d).2 = k + 1 ∧
      (sleepDurations (loopFrom ops c fuel w l d).2).length = k ∧
      printed (loopFrom ops c fuel w l d).2 = (List.range k).map err ++ ["OK"] ∧
      (loopFrom ops c fuel w l d).2.getLast? = some (Event.println "OK") := by
  intro k
  induction k with
  | zero =>
    intro w l d fuel err _ hok hfuel
    obtain ⟨f, rfl⟩ : ∃ f, fuel = f + 1 := ⟨fuel - 1, by omega⟩
    obtain ⟨hs, hp, hc⟩ := healthCheck_events w.parse (w.net 0) c
    unfold loopFrom
    rcases h : healthCheck w.parse (w.net 0) c with ⟨r, evs⟩
    rw [h] at hs hp hc hok
    simp only at hok
    subst hok
    simp [probeCount_append, sleepDurations_append, printed_append, hs, hp, hc,
      probeCount, sleepDurations, printed] at hs hp hc ⊢
    simp [hs, hp, hc]
  | succ k ih =>
    intro w l d fuel err hfail hok hfuel
    obtain ⟨f, rfl⟩ : ∃ f, fuel = f + 1 := ⟨fuel - 1, by omega⟩
    obtain ⟨hs, hp, hc⟩ := healthCheck_events w.parse (w.net 0) c
    have h0 := hfail 0 (Nat.succ_pos k)
    obtain ⟨r1, r2, r3, r4, r5⟩ := ih w.shift (l + 1) (nextDelay ops c (l + 1) d) f
      (fun i => err (i + 1)) (fun i hi => hfail (i + 1) (Nat.succ_lt_succ hi)) hok
      (Nat.lt_of_succ_lt_succ hfuel)
    unfold loopFrom
    rcases h : healthCheck w.parse (w.net 0) c with ⟨r, evs⟩
    rw [h] at hs hp hc h0
    simp only at h0
    subst h0
    simp only [probeCount] at hc r2 ⊢
    refine ⟨r1, ?_, ?_, ?_, ?_⟩
    · simp [List.count_append, hc, r2]
      omega
    · simp [sleepDurations_append, hs, sleepDurations, r3]
    · simp [printed_append, hp, printed, r4, List.range_succ_eq_map, Function.comp]
    · have hlast : ∀ pre : List Event,
          (pre ++ (loopFrom ops c f w.shift (l + 1) (nextDelay ops c (l + 1) d)).2).getLast?
            = some (Event.println "OK") := by
        intro pre
        rw [List.getLast?_append, r5]
        rfl
      exact hlast _

/-- While the probes fail the loop goes on. -/
theorem loopFrom_failing {F : Type} (ops : FloatOps F) (c : Context F) :
    ∀ (n : Nat) (w : World) (l : Nat) (d : Duration) (fuel : Nat),
      (∀ i, i < n → (healthCheck w.parse (w.net i) c).1 ≠ none) →
      (fuel ≤ n → (loopFrom ops c fuel w l d).1 = none) ∧
      (n < fuel → n + 1 ≤ probeCount (loopFrom ops c fuel w l d).2) := by
  intro n
  induction n with
  | zero =>
    intro w l d fuel _
    refine ⟨fun h => ?_, fun h => ?_⟩
    · obtain rfl : fuel = 0 := by omega
      rfl
    · obtain ⟨f, rfl⟩ : ∃ f, fuel = f + 1 := ⟨fuel - 1, by omega⟩
      obtain ⟨-, -, hc⟩ := healthCheck_events w.parse (w.net 0) c
      unfold loopFrom
      rcases h : healthCheck w.parse (w.net 0) c with ⟨r, evs⟩
      rw [h] at hc
      cases r <;> simp [probeCount_append, hc]
  | succ n ih =>
    intro w l d fuel hfail
    cases fuel with
    | zero => exact ⟨fun _ => rfl, fun h => absurd h (Nat.not_lt_zero _)⟩
    | succ f =>
      obtain ⟨-, -, hc⟩ := healthCheck_events w.parse (w.net 0) c
      have h0 := hfail 0 (Nat.succ_pos n)
      obtain ⟨i1, i2⟩ := ih w.shift (l + 1) (nextDelay ops c (l + 1) d) f
        (fun i hi => hfail (i + 1) (Nat.succ_lt_succ hi))
      unfold loopFrom
      rcases h : healthCheck w.parse (w.net 0) c with ⟨r, evs⟩
      rw [h] at hc h0
      cases r with
      | none => exact absurd rfl h0
      | some err =>
        refine ⟨fun hle => i1 (Nat.le_of_succ_le_succ hle), fun hlt => ?_⟩
        have := i2 (Nat.lt_of_succ_lt_succ hlt)
        simp only [probeCount_append, hc]
        omega

/-- C4: for every run in which the first `k` probes fail (with errors
`err 0`, ..., `err (k - 1)`, of any kind) and probe `k + 1` succeeds,
`loopHealthCheck` returns `nil` after exactly `k + 1` probes and exactly `k`
sleeps, having printed the `k` errors in order and then `OK` as its last
action.  It ends in no other way: its only outcome is the return of `nil`, and
whenever the first `n` probes all fail it is still looping after `n` probes and
goes on to probe number `n + 1`. -/
theorem loopHealthCheck_until_success {F : Type} (ops : FloatOps F) (w : World)
    (c : Context F) :
    (∀ (k : Nat) (err : Nat → String) (fuel : Nat),
      (∀ i, i < k → (healthCheck w.parse (w.net i) c).1 = some (err i)) →
      (healthCheck w.parse (w.net k) c).1 = none → k < fuel →
      (loopHealthCheck ops w c fuel).1 = some (Outcome.returned none) ∧
      probeCount (loopHealthCheck ops w c fuel).2 = k + 1 ∧
      (sleepDurations (loopHealthCheck ops w c fuel).2).length = k ∧
      printed (loopHealthCheck ops w c fuel).2 = (List.range k).map err ++ ["OK"] ∧
      (loopHealthCheck ops w c fuel).2.getLast? = some (Event.println "OK")) ∧
    (∀ (n fuel : Nat), (∀ i, i < n → (healthCheck w.parse (w.net i) c).1 ≠ none) →
      (fuel ≤ n → (loopHealthCheck ops w c fuel).1 = none) ∧
      (n < fuel → n + 1 ≤ probeCount (loopHealthCheck ops w c fuel).2)) ∧
    (∀ fuel : Nat, (loopHealthCheck ops w c fuel).1 = none ∨
      (loopHealthCheck ops w c fuel).1 = some (Outcome.returned none)) :=
  ⟨fun k err fuel hfail hok hfuel => loopFrom_success ops c k w 0 c.min fuel err hfail hok hfuel,
    fun n fuel hfail => loopFrom_failing ops c n w 0 c.min fuel hfail,
    fun fuel => loopFrom_outcome ops c fuel w 0 c.min⟩

theorem loopHealthCheck_until_success_witness :
    (loopHealthCheck (float64Ops outOfRange) (refusing 3) (flags Second (10 * Second) 2) 5).1
      = some (Outcome.returned none) ∧
    probeCount (loopHealthCheck (float64Ops outOfRange) (refusing 3) (flags Second (10 * Second) 2) 5).2
      = 3 + 1 ∧
    (sleepDurations
      (loopHealthCheck (float64Ops outOfRange) (refusing 3) (flags Second (10 * Second) 2) 5).2).length = 3 ∧
    printed (loopHealthCheck (float64Ops outOfRange) (refusing 3) (flags Second (10 * Second) 2) 5).2
      = (List.range 3).map (fun _ => "connection refused") ++ ["OK"] ∧
    (loopHealthCheck (float64Ops outOfRange) (refusing 3) (flags Second (10 * Second) 2) 5).2.getLast?
      = some (Event.println "OK") :=
  (loopHealthCheck_until_success (float64Ops outOfRange) (refusing 3) (flags Second (10 * Second) 2)).1 3
    (fun _ => "connection refused") 5
    (fun i hi => by simp [healthCheck, refusing, flags, hi])
    (by simp [healthCheck, refusing, flags]) (by decide)

/-- C10: for every `min`, `max` and `backoff` (whatever the floating point
operations compute), once the delay held by `loopHealthCheck` equals `max` it
equals `max` after every later iteration, and every later sleep lasts `max`. -/
theorem delay_stays_at_max {F : Type} (ops : FloatOps F) (w : World) (c : Context F)
    (fuel n m : Nat) (hnm : n ≤ m) (h : delayAt ops c n = c.max) :
    delayAt ops c m = c.max ∧
    ∀ d, (sleepDurations (loopHealthCheck ops w c fuel).2)[m]? = some d → d = c.max := by
  have hm : delayAt ops c m = c.max := by
    have := delayAt_stays_max ops c n h (m - n)
    rwa [Nat.add_sub_cancel' hnm] at this
  exact ⟨hm, fun d hd => (sleep_eq_delayAt ops w c fuel m d hd).trans hm⟩

theorem delay_stays_at_max_witness :
    delayAt (float64Ops outOfRange) (flags (8 * Second) (8 * Second) (1 / 2)) 3 = 8 * Second ∧
    ∀ d, (sleepDurations (loopHealthCheck (float64Ops outOfRange) (refusing 5)
        (flags (8 * Second) (8 * Second) (1 / 2)) 9).2)[3]? = some d → d = 8 * Second :=
  delay_stays_at_max (float64Ops outOfRange) (refusing 5) (flags (8 * Second) (8 * Second) (1 / 2)) 9 0 3
    (by decide) rfl

/-! ## The delays in closed form -/

/-- While every value so far is below `max`, the delay is the value itself. -/
theorem delayAt_eq_target {F : Type} (ops : FloatOps F) (c : Context F) :
    ∀ m : Nat, (∀ k, k ≤ m → target ops c k < c.max) → delayAt ops c m = target ops c m := by
  intro m
  induction m with
  | zero => intro _; rfl
  | succ m ih =>
    intro h
    have hm := ih (fun k hk => h k (Nat.le_succ_of_le hk))
    have hlt : delayAt ops c m < c.max := by
      rw [hm]; exact h m (Nat.le_succ m)
    show nextDelay ops c (m + 1) (delayAt ops c m) = _
    rw [nextDelay_of_lt ops c (m + 1) _ hlt]
    exact min_eq_left (le_of_lt (h (m + 1) (le_refl _)))

/-- While every earlier value is below `max`, the delay is the clamped value. -/
theorem delayAt_uncapped {F : Type} (ops : FloatOps F) (c : Context F) (n : Nat)
    (hmm : c.min ≤ c.max ∨ 0 < n) (h : ∀ k, k < n → target ops c k < c.max) :
    delayAt ops c n = min (target ops c n) c.max := by
  cases n with
  | zero =>
    rcases hmm with hmm | hmm
    · exact (min_eq_left hmm).symm
    · exact absurd hmm (Nat.lt_irrefl 0)
  | succ m =>
    have hm := delayAt_eq_target ops c m (fun k hk => h k (Nat.lt_succ_of_le hk))
    have hlt : delayAt ops c m < c.max := by
      rw [hm]; exact h m (Nat.lt_succ_self m)
    show nextDelay ops c (m + 1) (delayAt ops c m) = _
    rw [nextDelay_of_lt ops c (m + 1) _ hlt]
    rfl

/-- Once an earlier value has reached `max`, the delay is `max`. -/
theorem delayAt_capped {F : Type} (ops : FloatOps F) (c : Context F) :
    ∀ n : Nat, (∃ k, k < n ∧ c.max ≤ target ops c k) → delayAt ops c n = c.max := by
  intro n
  induction n with
  | zero => rintro ⟨k, hk, -⟩; exact absurd hk (Nat.not_lt_zero k)
  | succ n ih =>
    rintro ⟨k, hk, hge⟩
    show nextDelay ops c (n + 1) (delayAt ops c n) = c.max
    apply nextDelay_of_ge
    by_cases hex : ∃ j, j < n ∧ c.max ≤ target ops c j
    · exact le_of_eq (ih hex).symm
    · have hall : ∀ j, j < n → target ops c j < c.max := by
        intro j hj
        by_contra hnot
        exact hex ⟨j, hj, not_lt.mp hnot⟩
      have hkn : k = n := by
        rcases Nat.lt_succ_iff_lt_or_eq.mp hk with hlt | heq
        · exact absurd hge (not_le.mpr (hall k hlt))
        · exact heq
      subst hkn
      cases k with
      | zero => exact hge
      | succ m =>
        rw [delayAt_uncapped ops c (m + 1) (Or.inr (Nat.succ_pos m)) hall]
        exact le_min hge (le_refl _)

/-- C1 (amended): the sleep that follows failed probe number `n + 1` is
determined by the values `target k` that the loop computes (`min` for `k = 0`,
otherwise line 97's `float64` product `float64(min) * math.Pow(backoff, k)`
converted to `time.Duration`, which drops the fraction): while every earlier
value is below `max` the sleep lasts `min(target n, max)`, and once an earlier
value has reached `max` it lasts `max`.  This holds for every `backoff`, for
every `min ≤ max`, and for every sleep but the first when `min > max`.  With
`min = 1s`, `max = 10s`, `backoff = 2.0` the successive sleeps are
`1s, 2s, 4s, 8s, 10s, 10s`. -/
theorem loop_delay_formula {F : Type} (ops : FloatOps F) (w : World) (c : Context F)
    (fuel n : Nat) (d : Duration) (hmm : c.min ≤ c.max ∨ 0 < n)
    (hs : (sleepDurations (loopHealthCheck ops w c fuel).2)[n]? = some d) :
    ((∀ k, k < n → target ops c k < c.max) → d = min (target ops c n) c.max) ∧
    ((∃ k, k < n ∧ c.max ≤ target ops c k) → d = c.max) ∧
    (∀ conv : Float64 → Duration,
      sleepDurations
        (loopHealthCheck (float64Ops conv) (refusing 6) (flags Second (10 * Second) 2) 7).2
        = [1 * Second, 2 * Second, 4 * Second, 8 * Second, 10 * Second, 10 * Second]) := by
  rw [sleep_eq_delayAt ops w c fuel n d hs]
  exact ⟨delayAt_uncapped ops c n hmm, delayAt_capped ops c n,
    fun conv => by with_unfolding_all rfl⟩

theorem loop_delay_formula_witness :
    (8 * Second : Duration)
      = min (target (float64Ops outOfRange) (flags Second (10 * Second) 2) 3)
          (flags Second (10 * Second) 2).max :=
  (loop_delay_formula (float64Ops outOfRange) (refusing 6) (flags Second (10 * Second) 2) 7 3
    (8 * Second) (Or.inl (by decide))
    (by
      have hl : sleepDurations (loopHealthCheck (float64Ops outOfRange) (refusing 6)
          (flags Second (10 * Second) 2) 7).2
          = [1 * Second, 2 * Second, 4 * Second, 8 * Second, 10 * Second, 10 * Second] := by
        with_unfolding_all decide
      rw [hl]
      rfl)).1
    (by
      intro k hk
      interval_cases k <;> with_unfolding_all decide)

/-- C1 fails as stated, at `float64` values of `backoff` (`0.5`, `1.5`, `1.0`).
With `min = max = 8s` and `backoff = 0.5` the second sleep lasts `8s`, not
`min(8s * 0.5, 8s) = 4s`: the guard on line 96 stops the recomputation.  With
`min = 1s`, `max = 120s`, `backoff = 1.5` the eleventh sleep lasts
`57665039062ns`, while `min * backoff^10` is `57665039062.5ns`: the conversion
drops the fraction.  With `min = 9007199254740993ns`, `max = 9100000000000000ns`,
`backoff = 1.0` the second sleep lasts `9007199254740992ns`, not `min * 1`:
`float64(min)` is rounded. -/
theorem loop_delay_formula_fails :
    ((sleepDurations (loopHealthCheck (float64Ops outOfRange) (refusing 2)
        (flags (8 * Second) (8 * Second) (1 / 2)) 3).2)[1]? = some (8 * Second) ∧
      ((8 * Second : Duration) : ℚ) ≠
        min (((8 * Second : Duration) : ℚ) * (1 / 2) ^ 1) ((8 * Second : Duration) : ℚ)) ∧
    ((sleepDurations (loopHealthCheck (float64Ops outOfRange) (refusing 11)
        (flags Second (120 * Second) (3 / 2)) 12).2)[10]? = some 57665039062 ∧
      ((57665039062 : Duration) : ℚ) ≠
        min (((Second : Duration) : ℚ) * (3 / 2) ^ 10) ((120 * Second : Duration) : ℚ)) ∧
    ((sleepDurations (loopHealthCheck (float64Ops outOfRange) (refusing 2)
        (flags 9007199254740993 9100000000000000 1) 3).2)[1]? = some 9007199254740992 ∧
      ((9007199254740992 : Duration) : ℚ) ≠
        min (((9007199254740993 : Duration) : ℚ) * 1 ^ 1)
          ((9100000000000000 : Duration) : ℚ)) := by
  have h1 : sleepDurations (loopHealthCheck (float64Ops outOfRange) (refusing 2)
      (flags (8 * Second) (8 * Second) (1 / 2)) 3).2 = [8 * Second, 8 * Second] := by
    with_unfolding_all decide
  have h2 : sleepDurations (loopHealthCheck (float64Ops outOfRange) (refusing 11)
      (flags Second (120 * Second) (3 / 2)) 12).2 =
      [1000000000, 1500000000, 2250000000, 3375000000, 5062500000, 7593750000,
        11390625000, 17085937500, 25628906250, 38443359375, 57665039062] := by
    with_unfolding_all decide
  have h3 : sleepDurations (loopHealthCheck (float64Ops outOfRange) (refusing 2)
      (flags 9007199254740993 9100000000000000 1) 3).2 =
      [9007199254740993, 9007199254740992] := by
    with_unfolding_all decide
  rw [h1, h2, h3]
  refine ⟨⟨rfl, ?_⟩, ⟨rfl, ?_⟩, ⟨rfl, ?_⟩⟩
  · simp only [Second]; norm_num
  · simp only [Second]; norm_num
  · norm_num

/-- Every sleep but the first lasts at most `max`, whatever the floating point
operations compute: the clamp on lines 99-101 runs before each of them. -/
theorem later_sleeps_le_max {F : Type} (ops : FloatOps F) (w : World) (c : Context F)
    (fuel n : Nat) (d : Duration)
    (hs : (sleepDurations (loopHealthCheck ops w c fuel).2)[n + 1]? = some d) :
    d ≤ c.max := by
  rw [sleep_eq_delayAt ops w c fuel (n + 1) d hs]
  exact nextDelay_le_max ops c (n + 1) (delayAt ops c n)

/-- C5 at the flags `--min 10s --max 1s` (default `backoff`): the sleep after
the first failed probe lasts `10s`, which is more than `max`; the next one lasts
`1s`. -/
theorem first_sleep_exceeds_max :
    sleepDurations (loopHealthCheck (float64Ops outOfRange) (refusing 2)
      (flags (10 * Second) (1 * Second) 1) 3).2 = [10 * Second, 1 * Second] ∧
    (flags (10 * Second) (1 * Second) 1).max < 10 * Second := by
  refine ⟨by with_unfolding_all decide, by decide⟩

end Giddyup
